import Mathlib

-- Verification of the plan-execution engine in scripts/lib/run_plan.py.
-- The Python module is shallowly embedded: Python values become the inductive
-- type Val, the process state (status files, event log, lock tokens, spawned
-- subprocesses, wall clock) becomes the structure World, and fallible Python
-- code returns Except.  Wall-clock timestamps (datetime.utcnow) are modelled
-- by a monotone Nat counter rendered into a string.

set_option maxRecDepth 4096

/-- Model of RunPlanError (and its subclass StageExecutionError, distinguished
by the isStageExecution flag).  The constructor default for code is 1, as in
the Python class.  The extra payload dictionary is not modelled. -/
structure RPErr where
  message : String
  code : Int := 1
  isStageExecution : Bool := false
deriving DecidableEq, Repr

/-- Exceptions that can escape the embedded functions: OSError or
UnicodeDecodeError from file IO (neither is caught by run_plan.py),
KeyError from dictionary indexing, or a RunPlanError. -/
inductive ExcKind where
  | osError
  | keyError
  | decodeError
  | rpErr (e : RPErr)
deriving DecidableEq, Repr

/-- Python values as produced by the YAML layer and consumed by the engine.
Floats are represented by the literal text that produced them; no claim
depends on float arithmetic. -/
inductive Val where
  | vstr (s : String)
  | vbool (b : Bool)
  | vint (n : Int)
  | vnone
  | vfloat (r : String)
  | vlist (xs : List Val)
  | vdict (kvs : List (String × Val))
deriving Repr

/-- Python dict as an insertion-ordered association list with unique keys. -/
abbrev PyDict := List (String × Val)

/-- d.get(k): some v when the key is present. -/
def pyGet? (d : PyDict) (k : String) : Option Val :=
  match d with
  | [] => none
  | (k', v) :: rest => if k' = k then some v else pyGet? rest k

/-- d.get(k, dflt). -/
def pyGetD (d : PyDict) (k : String) (dflt : Val) : Val :=
  (pyGet? d k).getD dflt

/-- True iff all mantissa digits of a decimal float literal are zero; used for
the truthiness of a float. -/
def floatLitIsZero (r : String) : Bool :=
  ((r.data.takeWhile (fun c => c ≠ 'e' ∧ c ≠ 'E')).filter Char.isDigit).all (fun c => c = '0')

/-- Python truthiness bool(v). -/
def pyTruthy : Val → Bool
  | .vstr s => s ≠ ""
  | .vbool b => b
  | .vint n => n ≠ 0
  | .vnone => false
  | .vfloat r => ¬ floatLitIsZero r
  | .vlist xs => !xs.isEmpty
  | .vdict kvs => !kvs.isEmpty

/-- Python a or b: a when truthy, else b. -/
def pyOr (a b : Val) : Val := if pyTruthy a then a else b

mutual
/-- Python repr(v).  String repr is simplified to single-quote wrapping; no
theorem evaluates the repr of a container. -/
def pyRepr : Val → String
  | .vstr s => "'" ++ s ++ "'"
  | .vbool true => "True"
  | .vbool false => "False"
  | .vint n => toString n
  | .vnone => "None"
  | .vfloat r => r
  | .vlist xs => "[" ++ pyReprList xs ++ "]"
  | .vdict kvs => "\x7b" ++ pyReprDict kvs ++ "\x7d"

/-- Comma-separated reprs of the elements of a list. -/
def pyReprList : List Val → String
  | [] => ""
  | [x] => pyRepr x
  | x :: y :: rest => pyRepr x ++ ", " ++ pyReprList (y :: rest)

/-- Comma-separated key: value reprs of the items of a dict. -/
def pyReprDict : List (String × Val) → String
  | [] => ""
  | [(k, v)] => "'" ++ k ++ "': " ++ pyRepr v
  | (k, v) :: y :: rest => "'" ++ k ++ "': " ++ pyRepr v ++ ", " ++ pyReprDict (y :: rest)
end

/-- Python str(v): a string is itself; every other value prints as its
repr (true for booleans, None, numbers and containers alike). -/
def pyStr : Val → String
  | .vstr s => s
  | v => pyRepr v

-- SHA-1 over lists of bytes, with 32-bit words as Nat reduced mod 2^32.

/-- Truncate to a 32-bit word. -/
def w32 (x : Nat) : Nat := x % 4294967296

/-- Rotate a 32-bit word left by n bits. -/
def rotl32 (n x : Nat) : Nat := w32 (x <<< n) ||| (x >>> (32 - n))

/-- SHA-1 round constants. -/
def sha1K (t : Nat) : Nat :=
  if t < 20 then 1518500249
  else if t < 40 then 1859775393
  else if t < 60 then 2400959708
  else 3395469782

/-- SHA-1 round functions (NOT b is b xor 0xffffffff on 32-bit words). -/
def sha1F (t b c d : Nat) : Nat :=
  if t < 20 then (b &&& c) ||| ((b ^^^ 4294967295) &&& d)
  else if t < 40 then b ^^^ c ^^^ d
  else if t < 60 then (b &&& c) ||| (b &&& d) ||| (c &&& d)
  else b ^^^ c ^^^ d

/-- Big-endian bytes to word. -/
def bytesToWordBE (bs : List Nat) : Nat := bs.foldl (fun acc b => acc * 256 + b) 0

/-- Standard SHA-1 padding: 0x80, zeros to 56 mod 64, 8-byte big-endian bit length. -/
def sha1Pad (msg : List Nat) : List Nat :=
  let bitlen := msg.length * 8
  let zeros := (120 - ((msg.length + 1) % 64)) % 64
  msg ++ [128] ++ List.replicate zeros 0
    ++ (List.range 8).map (fun i => (bitlen >>> ((7 - i) * 8)) % 256)

/-- Expand one 64-byte chunk to the 80-word message schedule. -/
def sha1Schedule (chunk : List Nat) : Array Nat :=
  let w0 := (List.range 16).foldl
    (fun a i => a.push (bytesToWordBE ((chunk.drop (4 * i)).take 4))) (Array.mkEmpty 80)
  (List.range 64).foldl
    (fun a t => a.push (rotl32 1 (a.getD (t + 13) 0 ^^^ a.getD (t + 8) 0 ^^^ a.getD (t + 2) 0 ^^^ a.getD t 0)))
    w0

/-- The 80 compression rounds for one chunk, then the chaining addition. -/
def sha1Rounds (w : Array Nat) (h : Nat × Nat × Nat × Nat × Nat) : Nat × Nat × Nat × Nat × Nat :=
  let (h0, h1, h2, h3, h4) := h
  let z := (List.range 80).foldl
    (fun (st : Nat × Nat × Nat × Nat × Nat) t =>
      let (a, b, c, d, e) := st
      (w32 (rotl32 5 a + sha1F t b c d + e + sha1K t + w.getD t 0), a, rotl32 30 b, c, d))
    (h0, h1, h2, h3, h4)
  (w32 (h0 + z.1), w32 (h1 + z.2.1), w32 (h2 + z.2.2.1), w32 (h3 + z.2.2.2.1), w32 (h4 + z.2.2.2.2))

/-- SHA-1 of a byte string, as the five 32-bit state words. -/
def sha1Digest (msg : List Nat) : Nat × Nat × Nat × Nat × Nat :=
  (List.toChunks 64 (sha1Pad msg)).foldl (fun h chunk => sha1Rounds (sha1Schedule chunk) h)
    (1732584193, 4023233417, 2562383102, 271733878, 3285377520)

/-- Lowercase hex digit. -/
def hexChar (n : Nat) : Char := if n < 10 then Char.ofNat (48 + n) else Char.ofNat (87 + n)

/-- Eight lowercase hex digits of a 32-bit word. -/
def wordToHex (x : Nat) : String :=
  String.mk ((List.range 8).map (fun i => hexChar ((x >>> ((7 - i) * 4)) % 16)))

/-- hashlib.sha1(s.encode("utf-8")).hexdigest(). -/
def sha1hex (s : String) : String :=
  let d := sha1Digest (s.toUTF8.toList.map (fun b => b.toNat))
  wordToHex d.1 ++ wordToHex d.2.1 ++ wordToHex d.2.2.1 ++ wordToHex d.2.2.2.1 ++ wordToHex d.2.2.2.2

-- Target identity (compute_target_id, run_plan.py lines 229-245).

/-- Python s.strip(): drop leading and trailing whitespace (ASCII scope). -/
def pyStrip (s : String) : String :=
  String.mk (((s.data.dropWhile Char.isWhitespace).reverse.dropWhile Char.isWhitespace).reverse)

/-- str(target.get("BSSID") or target.get("bssid") or "").strip(). -/
def target_bssid (t : PyDict) : String :=
  pyStrip (pyStr (pyOr (pyGetD t "BSSID" .vnone) (pyOr (pyGetD t "bssid" .vnone) (.vstr ""))))

/-- str(target.get("SSID") or target.get("ssid") or "").strip(). -/
def target_ssid (t : PyDict) : String :=
  pyStrip (pyStr (pyOr (pyGetD t "SSID" .vnone) (pyOr (pyGetD t "ssid" .vnone) (.vstr ""))))

/-- str(target.get("canal") or target.get("channel") or "").strip(). -/
def target_canal (t : PyDict) : String :=
  pyStrip (pyStr (pyOr (pyGetD t "canal" .vnone) (pyOr (pyGetD t "channel" .vnone) (.vstr ""))))

/-- str(target.get("timestamp-window") or target.get("timestamp_window") or
target.get("window") or "").strip(). -/
def target_window (t : PyDict) : String :=
  pyStrip (pyStr (pyOr (pyGetD t "timestamp-window" .vnone)
    (pyOr (pyGetD t "timestamp_window" .vnone)
      (pyOr (pyGetD t "window" .vnone) (.vstr "")))))

/-- compute_target_id: sha1 hex digest of "bssid|ssid|canal|window", or a
RunPlanError when any of the four trimmed fields is empty. -/
def compute_target_id (t : PyDict) : Except RPErr String :=
  let bssid := target_bssid t
  let ssid := target_ssid t
  let canal := target_canal t
  let window := target_window t
  if bssid = "" ∨ ssid = "" ∨ canal = "" ∨ window = "" then
    .error { message := "Target missing one of required fields (BSSID, SSID, canal, timestamp-window)" }
  else
    .ok (sha1hex (bssid ++ "|" ++ ssid ++ "|" ++ canal ++ "|" ++ window))

-- Status store and process-state model.

/-- One entry of the errors mapping of a status record. -/
structure ErrEntry where
  ts : String
  reason : String
deriving DecidableEq, Repr

/-- A persisted status record.  Reading the empty JSON object gives all the
defaults (Python code accesses every key through .get with a default). -/
structure Status where
  completed : List String := []
  skipped : List String := []
  errors : List (String × ErrEntry) := []
  last_stage : Option String := none
  state : Option String := none
  updated_at : Option String := none
  completed_at : Option String := none
deriving DecidableEq, Repr

/-- Contents of a status file: a serialized record, text that fails
json.load with a JSONDecodeError (caught by read_status), or a file whose
open/read raises an OSError or UnicodeDecodeError (caught nowhere). -/
inductive FileContent where
  | statusRec (st : Status)
  | notJson
  | undecodable
deriving DecidableEq, Repr

/-- Association-list lookup keyed by strings. -/
def alistGet? {α : Type} : List (String × α) → String → Option α
  | [], _ => none
  | (k', v) :: rest, k => if k' = k then some v else alistGet? rest k

/-- The file system visible to the engine, as path-to-content bindings. -/
abbrev Fs := List (String × FileContent)

/-- Content at a path. -/
def fsGet (fs : Fs) (p : String) : Option FileContent := alistGet? fs p

/-- Create or overwrite a file. -/
def fsSet (fs : Fs) (p : String) (c : FileContent) : Fs :=
  fs.filter (fun e => e.1 != p) ++ [(p, c)]

/-- Delete a file (unlink). -/
def fsRemove (fs : Fs) (p : String) : Fs := fs.filter (fun e => e.1 != p)

/-- Primitive file-system steps of write_status; a crash may stop the
sequence between any two steps. -/
inductive FsOp where
  | write (p : String) (c : FileContent)
  | rename (src dst : String)
deriving DecidableEq, Repr

/-- Effect of one primitive step. -/
def applyFsOp (fs : Fs) : FsOp → Fs
  | .write p c => fsSet fs p c
  | .rename src dst =>
    match fsGet fs src with
    | none => fs
    | some c => fsSet (fsRemove fs src) dst c

/-- path.with_suffix(path.suffix + ".tmp") for the status paths in use. -/
def statusTmpPath (p : String) : String := p ++ ".tmp"

/-- write_status as its two file-system steps: dump the record to the
temporary file, then atomically rename it over the status path. -/
def write_status_ops (p : String) (st : Status) : List FsOp :=
  [.write (statusTmpPath p) (.statusRec st), .rename (statusTmpPath p) p]

/-- write_status run to completion. -/
def write_status (fs : Fs) (p : String) (st : Status) : Fs :=
  (write_status_ops p st).foldl applyFsOp fs

/-- read_status: empty record when the file is absent or its text is not
JSON; an existing file whose open/decode fails propagates the exception
(run_plan.py catches only json.JSONDecodeError). -/
def read_status (fs : Fs) (p : String) : Except ExcKind Status :=
  match fsGet fs p with
  | none => .ok {}
  | some (.statusRec st) => .ok st
  | some .notJson => .ok {}
  | some .undecodable => .error .osError

-- Event log and world state.

/-- One JSON line of the run_plan.events.jsonl log written by
log_stage_event; absent payload keys are none. -/
structure Event where
  ts : String
  stage : String
  target_id : String
  cmd : String
  versions : List (String × String)
  event : String
  returncode : Option Int := none
  stdout : Option String := none
  stderr : Option String := none
  skipped : Option Bool := none
  reason : Option String := none
deriving DecidableEq, Repr

/-- A line of the event log: a stage lifecycle event, or the error payload
appended by the per-target handler in run (its extra field is not modelled). -/
inductive LogEntry where
  | stageEv (e : Event)
  | runError (ts message : String)
deriving DecidableEq, Repr

/-- Process-visible state: status files, the event log, lock tokens held in
the locks directory, every command handed to subprocess.run, and a monotone
counter standing in for the wall clock. -/
structure World where
  fs : Fs := []
  log : List LogEntry := []
  locks : List String := []
  spawned : List String := []
  clock : Nat := 0
deriving DecidableEq, Repr

/-- iso_now rendered from the clock counter. -/
def isoNowStamp (n : Nat) : String := "ts-" ++ toString n

/-- Read the clock and advance it. -/
def tick (w : World) : String × World := (isoNowStamp w.clock, { w with clock := w.clock + 1 })

/-- errors.pop(k, None): drop the binding for k. -/
def dictPop (errors : List (String × ErrEntry)) (k : String) : List (String × ErrEntry) :=
  errors.filter (fun e => e.1 != k)

/-- errors[k] = v: replace in place, else append. -/
def dictSetErr : List (String × ErrEntry) → String → ErrEntry → List (String × ErrEntry)
  | [], k, v => [(k, v)]
  | (k', v') :: rest, k, v =>
    if k' = k then (k', v) :: rest else (k', v') :: dictSetErr rest k v

/-- Shared tail of update_status: stamp updated_at, rebuild the record and
persist it through write_status. -/
def update_status_write (w : World) (status_path stage_name : String)
    (completed skipped : List String) (errors : List (String × ErrEntry))
    (status_state : String) (old : Status) : Status × World :=
  let tw := tick w
  let st : Status :=
    { completed := completed, skipped := skipped, errors := errors,
      last_stage := some stage_name, state := some status_state,
      updated_at := some tw.1, completed_at := old.completed_at }
  (st, { tw.2 with fs := write_status tw.2.fs status_path st })

/-- update_status (run_plan.py lines 368-409). -/
def update_status (w : World) (status_path stage_name state : String)
    (st : Status) (reason : Option String) : Status × World :=
  if state = "completed" then
    update_status_write w status_path stage_name
      (if stage_name ∈ st.completed then st.completed else st.completed ++ [stage_name])
      (st.skipped.erase stage_name) (dictPop st.errors stage_name) "in_progress" st
  else if state = "skipped" then
    update_status_write w status_path stage_name st.completed
      (if stage_name ∈ st.skipped then st.skipped else st.skipped ++ [stage_name])
      (dictPop st.errors stage_name) "in_progress" st
  else if state = "error" then
    let tw := tick w
    update_status_write tw.2 status_path stage_name st.completed st.skipped
      (dictSetErr st.errors stage_name { ts := tw.1, reason := reason.getD "" }) "error" st
  else
    update_status_write w status_path stage_name st.completed st.skipped st.errors
      (st.state.getD "pending") st

/-- log_stage_event: stamp ts and append one payload line to the event log. -/
def log_stage_event (w : World) (stage_name target_id cmd : String)
    (versions : List (String × String)) (ev : String) (returncode : Option Int)
    (stdout stderr : Option String) (skippedF : Option Bool) (reason : Option String) : World :=
  let tw := tick w
  { tw.2 with log := tw.2.log ++ [.stageEv
      { ts := tw.1, stage := stage_name, target_id := target_id, cmd := cmd,
        versions := versions, event := ev, returncode := returncode,
        stdout := stdout, stderr := stderr, skipped := skippedF, reason := reason }] }

/-- normalize_cmd: str(stage["cmd"]), or a RunPlanError when the key is
absent or bound to None. -/
def normalize_cmd (stage : PyDict) : Except RPErr String :=
  match pyGetD stage "cmd" .vnone with
  | .vnone => .error { message := "Stage is missing 'cmd' attribute" }
  | v => .ok (pyStr v)

/-- Captured outcome of subprocess.run for one command. -/
structure ExecResult where
  returncode : Int
  stdout : String
  stderr : String
deriving DecidableEq, Repr

/-- The StageExecutionError raised for a non-zero exit code. -/
def stage_failed_error (stage_name : String) (returncode : Int) : RPErr :=
  { message := "Stage '" ++ stage_name ++ "' failed with exit code " ++ toString returncode,
    isStageExecution := true }

/-- run_stage (run_plan.py lines 412-488); exec is the deterministic oracle
for subprocess.run, and every spawned command is recorded in the world. -/
def run_stage (exec : String → ExecResult) (stage : PyDict) (target_id status_path : String)
    (st : Status) (versions : List (String × String)) (safe_mode : Bool) (w : World) :
    Except ExcKind Status × World :=
  match pyGet? stage "name" with
  | none => (.error .keyError, w)
  | some nameV =>
    let stage_name := pyStr nameV
    match normalize_cmd stage with
    | .error e => (.error (.rpErr e), w)
    | .ok cmd =>
      let active := pyTruthy (pyGetD stage "active" (.vbool false))
      if stage_name ∈ st.completed ∨ stage_name ∈ st.skipped then
        (.ok st, w)
      else if safe_mode = true ∧ active = true then
        let w1 := log_stage_event w stage_name target_id cmd versions "skipped"
          none none none (some true) (some "safe-mode")
        let r := update_status w1 status_path stage_name "skipped" st (some "safe-mode")
        (.ok r.1, r.2)
      else
        let w1 := log_stage_event w stage_name target_id cmd versions "start"
          none none none none none
        let result := exec cmd
        let w2 := { w1 with spawned := w1.spawned ++ [cmd] }
        if result.returncode ≠ 0 then
          let w3 := log_stage_event w2 stage_name target_id cmd versions "error"
            (some result.returncode) (some result.stdout) (some result.stderr) none none
          let r := update_status w3 status_path stage_name "error" st (some "stage failed")
          (.error (.rpErr (stage_failed_error stage_name result.returncode)), r.2)
        else
          let w3 := log_stage_event w2 stage_name target_id cmd versions "completed"
            (some result.returncode) none none none none
          let r := update_status w3 status_path stage_name "completed" st none
          (.ok r.1, r.2)

/-- finalize_status: stamp state completed unless a stage errored. -/
def finalize_status (w : World) (status_path : String) (st : Status) : World :=
  if st.state ≠ some "error" then
    let tw := tick w
    let st' := { st with state := some "completed", completed_at := some tw.1 }
    { tw.2 with fs := write_status tw.2.fs status_path st' }
  else w

/-- The per-target stage loop of process_target: run each stage, then
re-read the status file; an exception stops the loop at once. -/
def run_stages_loop (exec : String → ExecResult) (stages : List PyDict)
    (target_id status_path : String) (versions : List (String × String))
    (safe_mode : Bool) (st : Status) (w : World) : Except ExcKind Status × World :=
  match stages with
  | [] => (.ok st, w)
  | stage :: rest =>
    match run_stage exec stage target_id status_path st versions safe_mode w with
    | (.error e, w') => (.error e, w')
    | (.ok _, w') =>
      match read_status w'.fs status_path with
      | .error e => (.error e, w')
      | .ok st' => run_stages_loop exec rest target_id status_path versions safe_mode st' w'

/-- Python dict merge of two literals, second overriding the first. -/
def pyDictMerge (a b : PyDict) : PyDict :=
  a.map (fun kv => (kv.1, (pyGet? b kv.1).getD kv.2)) ++ b.filter (fun kv => (pyGet? a kv.1).isNone)

/-- stage_list on a stages mapping: each name maps to its body. -/
def stage_list_of_dict : List (String × Val) → List PyDict
  | [] => []
  | (name, details) :: rest =>
    (match details with
     | .vdict d => pyDictMerge [("name", .vstr name)] d
     | v => [("name", .vstr name), ("cmd", .vstr (pyStr v))]) :: stage_list_of_dict rest

/-- stage_list on a stages sequence, failing at the first invalid entry. -/
def stage_list_of_list : List Val → Except RPErr (List PyDict)
  | [] => .ok []
  | stage :: rest =>
    match stage with
    | .vstr s => (stage_list_of_list rest).map (fun l => [("name", .vstr s), ("cmd", .vstr s)] :: l)
    | .vdict d =>
      if (pyGet? d "name").isSome then (stage_list_of_list rest).map (fun l => d :: l)
      else .error { message := "Each stage dictionary must include a 'name' field" }
    | _ => .error { message := "Invalid stage entry" }

/-- stage_list (run_plan.py lines 291-319). -/
def stage_list (target : PyDict) : Except RPErr (List PyDict) :=
  match pyGetD target "stages" .vnone with
  | .vnone => .error { message := "Target is missing 'stages' definition" }
  | .vdict kvs => .ok (stage_list_of_dict kvs)
  | .vlist xs => stage_list_of_list xs
  | _ => .error { message := "Unsupported stage format" }

-- Lock manager and per-target orchestration.

/-- The RunPlanError raised on a lock conflict. -/
def lockConflictError (lock_path : String) : RPErr :=
  { message := "Target lock already present: " ++ lock_path }

/-- acquire_lock: atomically create the token, failing when it exists. -/
def acquire_lock (w : World) (lock_path : String) : Except RPErr World :=
  if lock_path ∈ w.locks then .error (lockConflictError lock_path)
  else .ok { w with locks := w.locks ++ [lock_path] }

/-- remove_lock: best-effort removal of the token. -/
def remove_lock (w : World) (lock_path : String) : World :=
  { w with locks := w.locks.erase lock_path }

/-- Body of the try block of process_target: discard stale status unless
resuming happens before this, so here read, normalize stages, run, finalize. -/
def process_target_body (exec : String → ExecResult) (target : PyDict)
    (target_id status_path : String) (versions : List (String × String))
    (safe_mode : Bool) (w : World) : Except ExcKind Unit × World :=
  match read_status w.fs status_path with
  | .error e => (.error e, w)
  | .ok st =>
    match stage_list target with
    | .error e => (.error (.rpErr e), w)
    | .ok stages =>
      match run_stages_loop exec stages target_id status_path versions safe_mode st w with
      | (.error e, w') => (.error e, w')
      | (.ok st', w') => (.ok (), finalize_status w' status_path st')

/-- process_target (run_plan.py lines 497-532): resolve identity, acquire
the lock (a conflict aborts before the try block, so the finally clause does
not run and the held lock is not removed), discard stale status when not
resuming, run the stage loop, and release the lock unconditionally. -/
def process_target (exec : String → ExecResult) (target : PyDict)
    (status_dir locks_dir : String) (versions : List (String × String))
    (resume safe_mode : Bool) (w : World) : Except ExcKind Unit × World :=
  match compute_target_id target with
  | .error e => (.error (.rpErr e), w)
  | .ok target_id =>
    let lock_path := locks_dir ++ "/" ++ target_id ++ ".lock"
    match acquire_lock w lock_path with
    | .error e => (.error (.rpErr e), w)
    | .ok w1 =>
      let status_path := status_dir ++ "/" ++ target_id ++ ".json"
      let w2 :=
        if resume = false ∧ (fsGet w1.fs status_path).isSome = true then
          { w1 with fs := fsRemove w1.fs status_path }
        else w1
      let r := process_target_body exec target target_id status_path versions safe_mode w2
      (r.1, remove_lock r.2 lock_path)

-- The run loop across targets.

/-- What run appends to errors: a RunPlanError is kept as is, any other
exception is wrapped as RunPlanError(str(exc)) with the default code. -/
def toRunPlanError : ExcKind → RPErr
  | .rpErr e => e
  | .osError => { message := "OSError" }
  | .keyError => { message := "KeyError" }
  | .decodeError => { message := "UnicodeDecodeError" }

/-- The body of one iteration of the target loop of run, before its except
clauses: reject a non-mapping target, else process it. -/
def process_one_target_raw (exec : String → ExecResult) (status_dir locks_dir : String)
    (versions : List (String × String)) (resume safe_mode : Bool)
    (target : Val) (w : World) : Except ExcKind Unit × World :=
  match target with
  | .vdict t => process_target exec t status_dir locks_dir versions resume safe_mode w
  | _ => (.error (.rpErr { message := "Each target must be a mapping" }), w)

/-- One iteration of the target loop of run: on any error append it to the
collected errors and log an error payload (the stderr print is not
modelled). -/
def process_one_target (exec : String → ExecResult) (status_dir locks_dir : String)
    (versions : List (String × String)) (resume safe_mode : Bool)
    (target : Val) (w : World) : Option RPErr × World :=
  match process_one_target_raw exec status_dir locks_dir versions resume safe_mode target w with
  | (.ok _, w') => (none, w')
  | (.error e, w') =>
    let rp := toRunPlanError e
    let tw := tick w'
    (some rp, { tw.2 with log := tw.2.log ++ [.runError tw.1 rp.message] })

/-- The full target loop, returning one outcome per target. -/
def run_targets_loop (exec : String → ExecResult) (status_dir locks_dir : String)
    (versions : List (String × String)) (resume safe_mode : Bool) :
    List Val → World → List (Option RPErr) × World
  | [], w => ([], w)
  | t :: rest, w =>
    let r1 := process_one_target exec status_dir locks_dir versions resume safe_mode t w
    let r2 := run_targets_loop exec status_dir locks_dir versions resume safe_mode rest r1.2
    (r1.1 :: r2.1, r2.2)

/-- The exit status computed at the end of run: 0 without errors, else
max(error.code for error in errors). -/
def exit_code (errs : List RPErr) : Int :=
  match errs with
  | [] => 0
  | e :: rest => (rest.map (fun x => x.code)).foldl max e.code

/-- The tail of run (run_plan.py lines 566-604): process every target,
collect the errors, and derive the process exit status. -/
def run_targets (exec : String → ExecResult) (status_dir locks_dir : String)
    (versions : List (String × String)) (resume safe_mode : Bool)
    (targets : List Val) (w : World) : Int × World :=
  let r := run_targets_loop exec status_dir locks_dir versions resume safe_mode targets w
  (exit_code (r.1.filterMap id), r.2)

-- Fallback declarative-config layer: tokenize_yaml and parse_scalar
-- (run_plan.py lines 80-89 and 177-205).

/-- raw_line.split("#", 1)[0]: everything before the first '#', with no
awareness of quoting. -/
def strip_comment (l : List Char) : List Char := l.takeWhile (fun c => c != '#')

/-- .rstrip("\n"). -/
def rstripNl (l : List Char) : List Char := (l.reverse.dropWhile (fun c => c = '\n')).reverse

/-- .rstrip(). -/
def rstripWs (l : List Char) : List Char := (l.reverse.dropWhile Char.isWhitespace).reverse

/-- .lstrip(" "). -/
def lstripSp (l : List Char) : List Char := l.dropWhile (fun c => c = ' ')

/-- .strip(). -/
def stripWs (l : List Char) : List Char := rstripWs (l.dropWhile Char.isWhitespace)

/-- One line of tokenize_yaml: comment stripping, blank filtering, indent
measured in leading spaces of the comment-stripped line, trimmed content. -/
def tokenize_line (line : String) : Option (Nat × String) :=
  let sc := rstripNl (strip_comment line.data)
  let stripped := rstripWs sc
  if (stripWs stripped).isEmpty then none
  else some (sc.length - (lstripSp sc).length, String.mk (stripWs stripped))

/-- str.splitlines restricted to newline separators (no trailing empty
line). -/
def splitlinesAux : List Char → List Char → List (List Char)
  | [], acc => if acc.isEmpty then [] else [acc.reverse]
  | c :: rest, acc =>
    if c = '\n' then acc.reverse :: splitlinesAux rest []
    else splitlinesAux rest (c :: acc)

/-- text.splitlines(). -/
def pySplitlines (s : String) : List String := (splitlinesAux s.data []).map String.mk

/-- tokenize_yaml: the (indent, content) tokens of the nonblank lines. -/
def tokenize_yaml (text : String) : List (Nat × String) :=
  (pySplitlines text).filterMap tokenize_line

/-- Hexadecimal digit value. -/
def hexDigitVal? (c : Char) : Option Nat :=
  if '0' ≤ c ∧ c ≤ '9' then some (c.toNat - 48)
  else if 'a' ≤ c ∧ c ≤ 'f' then some (c.toNat - 87)
  else if 'A' ≤ c ∧ c ≤ 'F' then some (c.toNat - 55)
  else none

/-- Octal digit value. -/
def octDigitVal? (c : Char) : Option Nat :=
  if '0' ≤ c ∧ c ≤ '7' then some (c.toNat - 48) else none

/-- Single-character escapes of the unicode_escape codec. -/
def escSimple? (c : Char) : Option Char :=
  if c = '\\' then some '\\'
  else if c = '\'' then some '\''
  else if c = '"' then some '"'
  else if c = 'a' then some (Char.ofNat 7)
  else if c = 'b' then some (Char.ofNat 8)
  else if c = 'f' then some (Char.ofNat 12)
  else if c = 'n' then some '\n'
  else if c = 'r' then some (Char.ofNat 13)
  else if c = 't' then some '\t'
  else if c = 'v' then some (Char.ofNat 11)
  else none

/-- bytes(inner, "utf-8").decode("unicode_escape"), restricted to ASCII
input: simple escapes, up to three octal digits, \xhh, \uhhhh, \Uhhhhhhhh;
an unknown escape keeps the backslash, a truncated one fails
(UnicodeDecodeError).  Named escapes and the latin-1 reinterpretation of
non-ASCII bytes are outside the model. -/
def pyUnicodeEscapeAux : Nat → List Char → Option (List Char)
  | 0, _ => none
  | _, [] => some []
  | fuel + 1, '\\' :: 'x' :: h1 :: h2 :: rest =>
    match hexDigitVal? h1, hexDigitVal? h2 with
    | some a, some b => (pyUnicodeEscapeAux fuel rest).map (Char.ofNat (16 * a + b) :: ·)
    | _, _ => none
  | _, ['\\', 'x', _] => none
  | _, ['\\', 'x'] => none
  | fuel + 1, '\\' :: 'u' :: h1 :: h2 :: h3 :: h4 :: rest =>
    match hexDigitVal? h1, hexDigitVal? h2, hexDigitVal? h3, hexDigitVal? h4 with
    | some a, some b, some c, some d =>
      (pyUnicodeEscapeAux fuel rest).map (Char.ofNat (4096 * a + 256 * b + 16 * c + d) :: ·)
    | _, _, _, _ => none
  | _, '\\' :: 'u' :: _ => none
  | fuel + 1, '\\' :: 'U' :: h1 :: h2 :: h3 :: h4 :: h5 :: h6 :: h7 :: h8 :: rest =>
    match hexDigitVal? h1, hexDigitVal? h2, hexDigitVal? h3, hexDigitVal? h4,
      hexDigitVal? h5, hexDigitVal? h6, hexDigitVal? h7, hexDigitVal? h8 with
    | some a, some b, some c, some d, some e, some f, some g, some h =>
      let v := ((((((a * 16 + b) * 16 + c) * 16 + d) * 16 + e) * 16 + f) * 16 + g) * 16 + h
      if v < 1114112 then (pyUnicodeEscapeAux fuel rest).map (Char.ofNat v :: ·) else none
    | _, _, _, _, _, _, _, _ => none
  | _, '\\' :: 'U' :: _ => none
  | fuel + 1, '\\' :: c :: rest =>
    if c = '\n' then pyUnicodeEscapeAux fuel rest
    else
      match escSimple? c with
      | some ec => (pyUnicodeEscapeAux fuel rest).map (ec :: ·)
      | none =>
        match octDigitVal? c with
        | some o1 =>
          match rest with
          | c2 :: rest2 =>
            match octDigitVal? c2 with
            | some o2 =>
              match rest2 with
              | c3 :: rest3 =>
                match octDigitVal? c3 with
                | some o3 => (pyUnicodeEscapeAux fuel rest3).map (Char.ofNat (o1 * 64 + o2 * 8 + o3) :: ·)
                | none => (pyUnicodeEscapeAux fuel rest2).map (Char.ofNat (o1 * 8 + o2) :: ·)
              | [] => some [Char.ofNat (o1 * 8 + o2)]
            | none => (pyUnicodeEscapeAux fuel rest).map (Char.ofNat o1 :: ·)
          | [] => some [Char.ofNat o1]
        | none =>
          if c = 'N' then none
          else (pyUnicodeEscapeAux fuel rest).map (fun r => '\\' :: c :: r)
  | _, ['\\'] => none
  | fuel + 1, c :: rest => (pyUnicodeEscapeAux fuel rest).map (c :: ·)

/-- The escape decoder with enough fuel for its input. -/
def pyUnicodeEscape? (l : List Char) : Option (List Char) :=
  pyUnicodeEscapeAux (l.length + 1) l

/-- A nonempty digit run with single underscores between digits, as Python
int() and float() accept. -/
def digitsUTail : List Char → Bool
  | [] => true
  | ['_'] => false
  | '_' :: c :: rest => c.isDigit && digitsUTail (c :: rest)
  | c :: rest => c.isDigit && digitsUTail rest

/-- Head of the digit run. -/
def digitsU : List Char → Bool
  | [] => false
  | c :: rest => c.isDigit && digitsUTail rest

/-- Numeric value of a digit run, underscores skipped. -/
def digitsVal (l : List Char) : Int :=
  (l.filter Char.isDigit).foldl (fun a c => a * 10 + ((c.toNat : Int) - 48)) 0

/-- int(value) in base 10: surrounding whitespace, optional sign,
underscore-grouped digits; none when Python would raise ValueError. -/
def pyInt? (s : String) : Option Int :=
  let l := rstripWs (s.data.dropWhile Char.isWhitespace)
  match l with
  | '+' :: rest => if digitsU rest then some (digitsVal rest) else none
  | '-' :: rest => if digitsU rest then some (-(digitsVal rest)) else none
  | _ => if digitsU l then some (digitsVal l) else none

/-- Split at the first character satisfying p, dropping it. -/
def splitFirst (p : Char → Bool) : List Char → List Char × Option (List Char)
  | [] => ([], none)
  | c :: rest =>
    if p c then ([], some rest)
    else
      let r := splitFirst p rest
      (c :: r.1, r.2)

/-- The mantissa shapes float() accepts: digits, digits., digits.digits,
.digits. -/
def floatMantissaOk (l : List Char) : Bool :=
  let r := splitFirst (fun c => c = '.') l
  match r.2 with
  | none => digitsU r.1
  | some b =>
    if b.any (fun c => c = '.') then false
    else (r.1.isEmpty && digitsU b) || (digitsU r.1 && b.isEmpty) || (digitsU r.1 && digitsU b)

/-- Whether float(value) succeeds: whitespace, sign, inf/infinity/nan or a
decimal mantissa with optional exponent, all digit runs underscore-grouped. -/
def pyFloatAccepts (s : String) : Bool :=
  let l0 := rstripWs (s.data.dropWhile Char.isWhitespace)
  let l := match l0 with
    | '+' :: r => r
    | '-' :: r => r
    | _ => l0
  let low := l.map Char.toLower
  if low = "inf".data || low = "infinity".data || low = "nan".data then true
  else
    let r := splitFirst (fun c => c = 'e' || c = 'E') l
    match r.2 with
    | none => floatMantissaOk r.1
    | some ex =>
      let ex' := match ex with
        | '+' :: t => t
        | '-' :: t => t
        | _ => ex
      floatMantissaOk r.1 && digitsU ex'

/-- JSON whitespace. -/
def jsonWs (l : List Char) : List Char :=
  l.dropWhile (fun c => c = ' ' || c = '\t' || c = '\n' || c = '\x0d')

/-- JSON string body after the opening quote, returning content and rest. -/
def jsonString : List Char → Option (List Char × List Char)
  | [] => none
  | '"' :: rest => some ([], rest)
  | '\\' :: 'u' :: h1 :: h2 :: h3 :: h4 :: rest =>
    match hexDigitVal? h1, hexDigitVal? h2, hexDigitVal? h3, hexDigitVal? h4 with
    | some a, some b, some c, some d =>
      (jsonString rest).map (fun r => (Char.ofNat (4096 * a + 256 * b + 16 * c + d) :: r.1, r.2))
    | _, _, _, _ => none
  | '\\' :: c :: rest =>
    let ec? : Option Char :=
      if c = '"' then some '"'
      else if c = '\\' then some '\\'
      else if c = '/' then some '/'
      else if c = 'b' then some (Char.ofNat 8)
      else if c = 'f' then some (Char.ofNat 12)
      else if c = 'n' then some '\n'
      else if c = 'r' then some (Char.ofNat 13)
      else if c = 't' then some '\t'
      else none
    match ec? with
    | some ec => (jsonString rest).map (fun r => (ec :: r.1, r.2))
    | none => none
  | c :: rest =>
    if c.toNat < 32 then none
    else (jsonString rest).map (fun r => (c :: r.1, r.2))

/-- JSON number: leading minus, 0 or a nonzero-led digit run, optional
fraction and exponent; integral numbers decode to Python int, the rest keep
their literal text as a float. -/
def jsonNum (l : List Char) : Option (Val × List Char) :=
  let (neg, l1) := match l with
    | '-' :: r => (true, r)
    | _ => (false, l)
  let ipart? : Option (List Char × List Char) := match l1 with
    | '0' :: r => some (['0'], r)
    | c :: r =>
      if c.isDigit then some (c :: r.takeWhile Char.isDigit, r.dropWhile Char.isDigit)
      else none
    | [] => none
  match ipart? with
  | none => none
  | some (ip, r1) =>
    let (fp?, r2) : Option (List Char) × List Char := match r1 with
      | '.' :: r =>
        let ds := r.takeWhile Char.isDigit
        if ds.isEmpty then (none, r1) else (some ds, r.dropWhile Char.isDigit)
      | _ => (none, r1)
    if fp?.isNone ∧ r1 ≠ r2 then none
    else
      let ep? : Option (List Char) := match r2 with
        | 'e' :: r => some r
        | 'E' :: r => some r
        | _ => none
      match ep? with
      | none =>
        match fp? with
        | none => some (.vint (if neg then -(digitsVal ip) else digitsVal ip), r2)
        | some fp =>
          some (.vfloat (String.mk ((if neg then ['-'] else []) ++ ip ++ '.' :: fp)), r2)
      | some er =>
        let (es, er1) : List Char × List Char := match er with
          | '+' :: t => (['+'], t)
          | '-' :: t => (['-'], t)
          | _ => ([], er)
        let ds := er1.takeWhile Char.isDigit
        if ds.isEmpty then none
        else
          let rest := er1.dropWhile Char.isDigit
          let frac := match fp? with
            | none => []
            | some fp => '.' :: fp
          some (.vfloat (String.mk ((if neg then ['-'] else []) ++ ip ++ frac ++ 'e' :: es ++ ds)), rest)

mutual
/-- Fueled JSON value parser (fuel bounds nesting). -/
def jsonVal : Nat → List Char → Option (Val × List Char)
  | 0, _ => none
  | fuel + 1, l =>
    match jsonWs l with
    | 'n' :: 'u' :: 'l' :: 'l' :: rest => some (.vnone, rest)
    | 't' :: 'r' :: 'u' :: 'e' :: rest => some (.vbool true, rest)
    | 'f' :: 'a' :: 'l' :: 's' :: 'e' :: rest => some (.vbool false, rest)
    | '"' :: rest => (jsonString rest).map (fun r => (.vstr (String.mk r.1), r.2))
    | '[' :: rest =>
      (match jsonWs rest with
       | ']' :: rest' => some (.vlist [], rest')
       | l' => (jsonArrItems fuel l').map (fun r => (.vlist r.1, r.2)))
    | '\x7b' :: rest =>
      (match jsonWs rest with
       | '\x7d' :: rest' => some (.vdict [], rest')
       | l' => (jsonObjItems fuel l').map (fun r => (.vdict r.1, r.2)))
    | l' => jsonNum l'

/-- Comma-separated array items up to the closing bracket. -/
def jsonArrItems : Nat → List Char → Option (List Val × List Char)
  | 0, _ => none
  | fuel + 1, l =>
    match jsonVal fuel l with
    | none => none
    | some (v, rest) =>
      match jsonWs rest with
      | ',' :: rest' => (jsonArrItems fuel rest').map (fun r => (v :: r.1, r.2))
      | ']' :: rest' => some ([v], rest')
      | _ => none

/-- Comma-separated object items up to the closing brace. -/
def jsonObjItems : Nat → List Char → Option (List (String × Val) × List Char)
  | 0, _ => none
  | fuel + 1, l =>
    match jsonWs l with
    | '"' :: rest =>
      match jsonString rest with
      | none => none
      | some (k, rest1) =>
        match jsonWs rest1 with
        | ':' :: rest2 =>
          match jsonVal fuel rest2 with
          | none => none
          | some (v, rest3) =>
            match jsonWs rest3 with
            | ',' :: rest4 => (jsonObjItems fuel rest4).map (fun r => ((String.mk k, v) :: r.1, r.2))
            | '\x7d' :: rest4 => some ([(String.mk k, v)], rest4)
            | _ => none
        | _ => none
    | _ => none
end

/-- json.loads(value): a single JSON document with nothing but whitespace
after it. -/
def pyJsonLoads? (s : String) : Option Val :=
  match jsonVal (s.data.length + 2) s.data with
  | some (v, rest) => if (jsonWs rest).isEmpty then some v else none
  | none => none

/-- Python s.lower() (ASCII scope). -/
def pyLower (s : String) : String := String.mk (s.data.map Char.toLower)

/-- str.replace("''", "'"): collapse doubled single quotes left to right. -/
def undoubleQuotes : List Char → List Char
  | '\'' :: '\'' :: rest => '\'' :: undoubleQuotes rest
  | c :: rest => c :: undoubleQuotes rest
  | [] => []

/-- The flow-collection fallback at the end of parse_scalar: attempt
json.loads on bracketed text, else keep the raw string. -/
def parse_scalar_tail (value : String) : Except ExcKind Val :=
  let d := value.data
  if (d.head? = some '[' ∧ d.getLast? = some ']')
      ∨ (d.head? = some '\x7b' ∧ d.getLast? = some '\x7d') then
    match pyJsonLoads? value with
    | some v => .ok v
    | none => .ok (.vstr value)
  else .ok (.vstr value)

/-- parse_scalar (run_plan.py lines 177-205): quoted string, boolean and
null keywords, numeric coercion, flow collection, else the raw string.  The
only exception path is a UnicodeDecodeError raised by the double-quote
escape decoder, which parse_scalar does not catch. -/
def parse_scalar (value : String) : Except ExcKind Val :=
  match value.data with
  | [] => .ok (.vstr "")
  | c :: _ =>
    if (c = '"' ∨ c = '\'') ∧ value.data.getLast? = some c then
      let inner := String.mk (value.data.drop 1 |>.dropLast)
      if c = '"' then
        match pyUnicodeEscape? inner.data with
        | some l => .ok (.vstr (String.mk l))
        | none => .error .decodeError
      else .ok (.vstr (String.mk (undoubleQuotes inner.data)))
    else
      let lowered := pyLower value
      if lowered = "true" ∨ lowered = "yes" ∨ lowered = "on" then .ok (.vbool true)
      else if lowered = "false" ∨ lowered = "no" ∨ lowered = "off" then .ok (.vbool false)
      else if lowered = "null" ∨ lowered = "none" ∨ lowered = "~" then .ok .vnone
      else if value.data.any (fun ch => ch = '.' ∨ ch = 'e' ∨ ch = 'E') then
        (if pyFloatAccepts value then .ok (.vfloat value) else parse_scalar_tail value)
      else
        match pyInt? value with
        | some n => .ok (.vint n)
        | none => parse_scalar_tail value

/-- A command oracle whose every command exits 0 with empty output; used to
instantiate theorems at concrete inputs. -/
def execZero : String → ExecResult := fun _ => { returncode := 0, stdout := "", stderr := "" }

/-- A command oracle whose every command exits 2; used to instantiate
theorems at concrete inputs. -/
def execFail : String → ExecResult := fun _ => { returncode := 2, stdout := "out", stderr := "err" }

-- Invariants of the status record (for claim C3).

/-- A stage name appears in at most one of completed/skipped, and a stage
listed in either of them has no pending error entry. -/
def statusOK (st : Status) : Prop :=
  (∀ s, s ∈ st.completed → s ∉ st.skipped) ∧
  (∀ s, s ∈ st.completed ∨ s ∈ st.skipped → alistGet? st.errors s = none)

/-- Whatever status record the file at p holds satisfies statusOK. -/
def fileOK (fs : Fs) (p : String) : Prop :=
  ∀ st, fsGet fs p = some (FileContent.statusRec st) → statusOK st

-- Association-list and file-system lemmas.

theorem alistGet?_append_right {α : Type} (l1 l2 : List (String × α)) (k : String)
    (h : alistGet? l1 k = none) : alistGet? (l1 ++ l2) k = alistGet? l2 k := by
  induction l1 with
  | nil => simp
  | cons hd tl ih =>
    obtain ⟨k', v⟩ := hd
    by_cases hk : k' = k
    · simp [alistGet?, hk] at h
    · simp only [alistGet?, hk, List.cons_append, if_false] at h ⊢
      exact ih h

theorem alistGet?_filterNe_self {α : Type} (l : List (String × α)) (p : String) :
    alistGet? (l.filter (fun e => e.1 != p)) p = none := by
  induction l with
  | nil => simp [alistGet?]
  | cons hd tl ih =>
    obtain ⟨k, v⟩ := hd
    by_cases hk : k = p
    · simpa [List.filter_cons, hk, bne_iff_ne]
    · simpa [List.filter_cons, hk, bne_iff_ne, alistGet?]

theorem alistGet?_filterNe_ne {α : Type} (l : List (String × α)) (p q : String)
    (h : q ≠ p) : alistGet? (l.filter (fun e => e.1 != p)) q = alistGet? l q := by
  induction l with
  | nil => simp [alistGet?]
  | cons hd tl ih =>
    obtain ⟨k, v⟩ := hd
    by_cases hk : k = p
    · subst hk
      have hkq : ¬ k = q := fun hh => h hh.symm
      simp [List.filter_cons, bne_iff_ne, alistGet?, hkq, ih]
    · by_cases hq : k = q
      · simp [List.filter_cons, bne_iff_ne, hk, alistGet?, hq, h]
      · simp [List.filter_cons, bne_iff_ne, hk, alistGet?, hq, ih]

theorem fsGet_fsSet_self (fs : Fs) (p : String) (c : FileContent) :
    fsGet (fsSet fs p c) p = some c := by
  unfold fsGet fsSet
  rw [alistGet?_append_right _ _ _ (alistGet?_filterNe_self fs p)]
  simp [alistGet?]

theorem alistGet?_append_left {α : Type} (l1 l2 : List (String × α)) (k : String) (v : α)
    (h : alistGet? l1 k = some v) : alistGet? (l1 ++ l2) k = some v := by
  induction l1 with
  | nil => simp [alistGet?] at h
  | cons hd tl ih =>
    obtain ⟨k', v'⟩ := hd
    by_cases hk : k' = k
    · simp [alistGet?, hk] at h ⊢
      exact h
    · simp only [alistGet?, hk, if_false, List.cons_append] at h ⊢
      exact ih h

theorem fsGet_fsSet_ne (fs : Fs) (p : String) (c : FileContent) (q : String) (h : q ≠ p) :
    fsGet (fsSet fs p c) q = fsGet fs q := by
  unfold fsGet fsSet
  rcases hv : alistGet? (fs.filter (fun e => e.1 != p)) q with _ | v
  · rw [alistGet?_append_right _ _ _ hv]
    rw [alistGet?_filterNe_ne fs p q h] at hv
    have hpq : ¬ p = q := fun hh => h hh.symm
    simp [alistGet?, hpq, hv]
  · rw [alistGet?_append_left _ _ _ _ hv, ← alistGet?_filterNe_ne fs p q h, hv]

theorem fsGet_fsRemove_ne (fs : Fs) (p q : String) (h : q ≠ p) :
    fsGet (fsRemove fs p) q = fsGet fs q := by
  unfold fsGet fsRemove
  exact alistGet?_filterNe_ne fs p q h

-- The status path is never its own temporary path.

theorem ne_statusTmpPath (p : String) : p ≠ statusTmpPath p := by
  intro h
  have hd := congrArg String.data h
  rw [statusTmpPath, String.data_append] at hd
  have hlen := congrArg List.length hd
  rw [List.length_append] at hlen
  have h4 : ".tmp".data.length = 4 := rfl
  omega

theorem fsGet_write_status_self (fs : Fs) (p : String) (st : Status) :
    fsGet (write_status fs p st) p = some (.statusRec st) := by
  unfold write_status write_status_ops
  simp only [List.foldl_cons, List.foldl_nil, applyFsOp]
  rw [fsGet_fsSet_self]
  exact fsGet_fsSet_self _ _ _

theorem fileOK_of_write (fs : Fs) (p : String) (st : Status) (h : statusOK st) :
    fileOK (write_status fs p st) p := by
  intro st' hget
  rw [fsGet_write_status_self] at hget
  cases hget
  exact h

-- Errors-dictionary lemmas.

theorem alistGet?_dictPop_self (l : List (String × ErrEntry)) (k : String) :
    alistGet? (dictPop l k) k = none :=
  alistGet?_filterNe_self l k

theorem alistGet?_dictPop_ne (l : List (String × ErrEntry)) (k q : String) (h : q ≠ k) :
    alistGet? (dictPop l k) q = alistGet? l q :=
  alistGet?_filterNe_ne l k q h

theorem alistGet?_dictSetErr_self (l : List (String × ErrEntry)) (k : String) (v : ErrEntry) :
    alistGet? (dictSetErr l k v) k = some v := by
  induction l with
  | nil => simp [dictSetErr, alistGet?]
  | cons hd tl ih =>
    obtain ⟨k', v'⟩ := hd
    by_cases hk : k' = k
    · simp [dictSetErr, hk, alistGet?]
    · simp [dictSetErr, hk, alistGet?, ih]

theorem alistGet?_dictSetErr_ne (l : List (String × ErrEntry)) (k q : String) (v : ErrEntry)
    (h : q ≠ k) : alistGet? (dictSetErr l k v) q = alistGet? l q := by
  have hk : ¬ k = q := fun hh => h hh.symm
  induction l with
  | nil => simp [dictSetErr, alistGet?, hk]
  | cons hd tl ih =>
    obtain ⟨k', v'⟩ := hd
    by_cases hkk : k' = k
    · simp [dictSetErr, hkk, alistGet?, hk]
    · simp [dictSetErr, hkk, alistGet?, ih]

-- update_status characterization.

theorem statusOK_update_status (w : World) (path name state : String) (st : Status)
    (r : Option String) (hok : statusOK st) (hnc : name ∉ st.completed)
    (hns : name ∉ st.skipped) :
    statusOK (update_status w path name state st r).1 := by
  obtain ⟨h1, h2⟩ := hok
  unfold update_status update_status_write
  split_ifs with hc hs he
  · simp only [statusOK, if_neg hnc, List.erase_of_not_mem hns]
    refine ⟨?_, ?_⟩
    · intro s hsmem
      rcases List.mem_append.mp hsmem with hin | hone
      · exact h1 s hin
      · rw [List.mem_singleton.mp hone]; exact hns
    · intro s hor
      by_cases hsn : s = name
      · subst hsn; exact alistGet?_dictPop_self _ _
      · rw [alistGet?_dictPop_ne _ _ _ hsn]
        apply h2
        rcases hor with hin | hin
        · rcases List.mem_append.mp hin with hh | hh
          · exact Or.inl hh
          · exact absurd (List.mem_singleton.mp hh) hsn
        · exact Or.inr hin
  · simp only [statusOK, if_neg hns]
    refine ⟨?_, ?_⟩
    · intro s hsmem hsk
      rcases List.mem_append.mp hsk with hin | hone
      · exact h1 s hsmem hin
      · exact hnc (List.mem_singleton.mp hone ▸ hsmem)
    · intro s hor
      by_cases hsn : s = name
      · subst hsn; exact alistGet?_dictPop_self _ _
      · rw [alistGet?_dictPop_ne _ _ _ hsn]
        apply h2
        rcases hor with hin | hin
        · exact Or.inl hin
        · rcases List.mem_append.mp hin with hh | hh
          · exact Or.inr hh
          · exact absurd (List.mem_singleton.mp hh) hsn
  · simp only [statusOK]
    refine ⟨h1, ?_⟩
    intro s hor
    have hsn : s ≠ name := by
      rintro rfl
      rcases hor with hin | hin
      · exact hnc hin
      · exact hns hin
    rw [alistGet?_dictSetErr_ne _ _ _ _ hsn]
    exact h2 s hor
  · exact ⟨h1, h2⟩

theorem update_status_fs (w : World) (path name state : String) (st : Status)
    (r : Option String) :
    fsGet (update_status w path name state st r).2.fs path
      = some (.statusRec (update_status w path name state st r).1) := by
  unfold update_status update_status_write
  split_ifs <;> simp [tick, fsGet_write_status_self]

theorem update_status_log (w : World) (path name state : String) (st : Status)
    (r : Option String) :
    (update_status w path name state st r).2.log = w.log := by
  unfold update_status update_status_write
  split_ifs <;> simp [tick]

theorem update_status_spawned (w : World) (path name state : String) (st : Status)
    (r : Option String) :
    (update_status w path name state st r).2.spawned = w.spawned := by
  unfold update_status update_status_write
  split_ifs <;> simp [tick]

theorem update_status_skipped_fields (w : World) (path name : String) (st : Status)
    (r : Option String) (hns : name ∉ st.skipped) :
    (update_status w path name "skipped" st r).1.skipped = st.skipped ++ [name] := by
  have hc : ("skipped" : String) ≠ "completed" := by decide
  unfold update_status update_status_write
  rw [if_neg hc, if_pos rfl]
  simp [if_neg hns]

theorem update_status_error_fields (w : World) (path name : String) (st : Status)
    (r : Option String) :
    (update_status w path name "error" st r).1.state = some "error" ∧
    alistGet? (update_status w path name "error" st r).1.errors name ≠ none := by
  have hc : ("error" : String) ≠ "completed" := by decide
  have hs : ("error" : String) ≠ "skipped" := by decide
  unfold update_status update_status_write
  rw [if_neg hc, if_neg hs, if_pos rfl]
  refine ⟨rfl, ?_⟩
  rw [alistGet?_dictSetErr_self]
  simp

-- Fold-max lemmas for the exit status.

theorem le_foldl_max (l : List Int) (a : Int) : a ≤ l.foldl max a := by
  induction l generalizing a with
  | nil => simp
  | cons x xs ih => exact le_trans (le_max_left a x) (ih (max a x))

theorem foldl_max_le (l : List Int) (a : Int) : ∀ x ∈ l, x ≤ l.foldl max a := by
  induction l generalizing a with
  | nil => simp
  | cons y ys ih =>
    intro x hx
    rcases List.mem_cons.mp hx with rfl | hx'
    · exact le_trans (le_max_right a x) (le_foldl_max ys (max a x))
    · exact ih (max a y) x hx'

theorem foldl_max_mem (l : List Int) (a : Int) : l.foldl max a = a ∨ l.foldl max a ∈ l := by
  induction l generalizing a with
  | nil => simp
  | cons y ys ih =>
    rw [List.foldl_cons]
    rcases ih (max a y) with h | h
    · rcases max_choice a y with hm | hm
      · exact Or.inl (h.trans hm)
      · right
        rw [h, hm]
        exact List.mem_cons_self y ys
    · exact Or.inr (List.mem_cons_of_mem y h)

-- The target loop visits every target.

theorem run_targets_loop_length (exec : String → ExecResult) (sd ld : String)
    (versions : List (String × String)) (resume safe : Bool) (targets : List Val) (w : World) :
    (run_targets_loop exec sd ld versions resume safe targets w).1.length = targets.length := by
  induction targets generalizing w with
  | nil => simp [run_targets_loop]
  | cons t rest ih => simp [run_targets_loop, ih]

-- Comment stripping is oblivious to quotes.

theorem strip_comment_append (pl sl : List Char) (hp : '#' ∉ pl) :
    strip_comment (pl ++ '#' :: sl) = strip_comment pl := by
  induction pl with
  | nil => simp [strip_comment]
  | cons c cs ih =>
    rw [List.mem_cons, not_or] at hp
    have hc : (c != '#') = true := by
      simpa [bne_iff_ne] using fun hh => hp.1 hh.symm
    simp only [strip_comment, List.cons_append, List.takeWhile_cons, hc, if_true]
    have := ih hp.2
    simp only [strip_comment] at this
    rw [this]

theorem tokenize_line_comment_append (p s : String) (hp : '#' ∉ p.data) :
    tokenize_line (p ++ "#" ++ s) = tokenize_line p := by
  unfold tokenize_line
  have hd : (p ++ "#" ++ s).data = p.data ++ '#' :: s.data := by
    simp [String.data_append]
  rw [hd, strip_comment_append _ _ hp]

theorem splitlinesAux_no_newline (l : List Char) (h : '\n' ∉ l) :
    ∀ acc, splitlinesAux l acc = if acc.isEmpty ∧ l.isEmpty then [] else [acc.reverse ++ l] := by
  induction l with
  | nil =>
    intro acc
    by_cases ha : acc.isEmpty
    · simp [splitlinesAux, ha]
    · simp [splitlinesAux, ha]
  | cons c cs ih =>
    intro acc
    rw [List.mem_cons, not_or] at h
    have hc : ¬ c = '\n' := fun hh => h.1 hh.symm
    rw [splitlinesAux, if_neg hc, ih h.2 (c :: acc)]
    simp

theorem tokenize_yaml_comment_append (p s : String) (hp : '#' ∉ p.data)
    (hnp : '\n' ∉ p.data) (hns : '\n' ∉ s.data) :
    tokenize_yaml (p ++ "#" ++ s) = tokenize_yaml p := by
  have hd : (p ++ "#" ++ s).data = p.data ++ '#' :: s.data := by
    simp [String.data_append]
  have hno : '\n' ∉ (p ++ "#" ++ s).data := by
    rw [hd]
    simp only [List.mem_append, List.mem_cons]
    rintro (h1 | h2 | h3)
    · exact hnp h1
    · cases h2
    · exact hns h3
  have htl := tokenize_line_comment_append p s hp
  unfold tokenize_yaml pySplitlines
  rw [splitlinesAux_no_newline _ hno [], splitlinesAux_no_newline _ hnp []]
  have hne : ((p ++ "#" ++ s).data.isEmpty) = false := by
    rw [hd]; cases p.data <;> rfl
  rw [if_neg (by simp [hne])]
  by_cases hpe : p.data.isEmpty = true
  · rw [if_pos (by simp [hpe])]
    have hp0 : p = "" := by
      cases p with
      | mk d =>
        cases d with
        | nil => rfl
        | cons a b => simp at hpe
    simp only [List.reverse_nil, List.nil_append, List.map_cons, List.map_nil,
      List.filterMap_cons, List.filterMap_nil]
    have heta : String.mk (p ++ "#" ++ s).data = p ++ "#" ++ s := rfl
    rw [heta, htl, hp0]
    rfl
  · rw [if_neg (by simp [hpe])]
    simp only [List.reverse_nil, List.nil_append, List.map_cons, List.map_nil,
      List.filterMap_cons, List.filterMap_nil]
    have heta : String.mk (p ++ "#" ++ s).data = p ++ "#" ++ s := rfl
    have heta2 : String.mk p.data = p := rfl
    rw [heta, heta2, htl]

-- Claim theorems.

/-- Claim C1: compute_target_id is determined by the four trimmed
identifying fields alone: two target mappings agreeing on the extracted
(BSSID, SSID, canal, timestamp-window) values after trimming receive the
identical digest string, whatever name, stages or other keys they carry. -/
theorem compute_target_id_deterministic (t1 t2 : PyDict)
    (hb : target_bssid t1 = target_bssid t2) (hs : target_ssid t1 = target_ssid t2)
    (hc : target_canal t1 = target_canal t2) (hw : target_window t1 = target_window t2)
    (hbne : target_bssid t1 ≠ "") (hsne : target_ssid t1 ≠ "")
    (hcne : target_canal t1 ≠ "") (hwne : target_window t1 ≠ "") :
    ∃ d, compute_target_id t1 = .ok d ∧ compute_target_id t2 = .ok d := by
  have h1 : ¬ (target_bssid t1 = "" ∨ target_ssid t1 = "" ∨ target_canal t1 = ""
      ∨ target_window t1 = "") := by
    rintro (h | h | h | h)
    exacts [hbne h, hsne h, hcne h, hwne h]
  refine ⟨sha1hex (target_bssid t1 ++ "|" ++ target_ssid t1 ++ "|" ++ target_canal t1
      ++ "|" ++ target_window t1), ?_, ?_⟩
  · simp only [compute_target_id]
    rw [if_neg h1]
  · simp only [compute_target_id]
    rw [← hb, ← hs, ← hc, ← hw, if_neg h1]

/-- Witness for C1: two targets differing in name, stage list and key
spelling but with equal trimmed identifying fields get the same digest. -/
theorem compute_target_id_deterministic_witness :
    ∃ d, compute_target_id [("name", .vstr "alpha"), ("BSSID", .vstr "aa:bb"),
        ("SSID", .vstr "net"), ("canal", .vstr "6"), ("timestamp-window", .vstr "w"),
        ("stages", .vlist [.vstr "scan"])] = .ok d ∧
      compute_target_id [("name", .vstr "beta"), ("BSSID", .vstr " aa:bb "),
        ("ssid", .vstr "net"), ("channel", .vstr "6"), ("window", .vstr "w")] = .ok d :=
  compute_target_id_deterministic _ _ (by decide) (by decide) (by decide) (by decide)
    (by decide) (by decide) (by decide) (by decide)

/-- Claim C2: a stage whose name is already in the completed or skipped
list of the status record makes run_stage return at once, appending no
event and leaving the status record and the whole world (status file
included) untouched. -/
theorem run_stage_skips_resolved_stage
    (exec : String → ExecResult) (stage : PyDict) (nameV : Val) (cmd : String)
    (target_id status_path : String) (st : Status) (versions : List (String × String))
    (safe_mode : Bool) (w : World)
    (hname : pyGet? stage "name" = some nameV)
    (hcmd : normalize_cmd stage = .ok cmd)
    (hdone : pyStr nameV ∈ st.completed ∨ pyStr nameV ∈ st.skipped) :
    run_stage exec stage target_id status_path st versions safe_mode w = (.ok st, w) := by
  simp only [run_stage, hname, hcmd]
  rw [if_pos hdone]

/-- Witness for C2: a stage already recorded as completed is a no-op. -/
theorem run_stage_skips_resolved_stage_witness :
    run_stage execZero [("name", .vstr "s1"), ("cmd", .vstr "c1")] "tid" "p.json"
      { completed := ["s1"] } [] false {} = (.ok { completed := ["s1"] }, {}) :=
  run_stage_skips_resolved_stage execZero _ (.vstr "s1") "c1" "tid" "p.json" _ [] false _
    rfl rfl (Or.inl (by decide))

/-- Claim C5: when the lock token for the computed target identifier is
already held, process_target returns the lock-conflict RunPlanError with
the input world unchanged: the status file is neither read, deleted nor
written, and the held lock token is not removed (acquire_lock fails before
the try/finally, so remove_lock never runs). -/
theorem process_target_lock_conflict (exec : String → ExecResult) (target : PyDict)
    (status_dir locks_dir : String) (versions : List (String × String))
    (resume safe : Bool) (w : World) (tid : String)
    (hid : compute_target_id target = .ok tid)
    (hlock : (locks_dir ++ "/" ++ tid ++ ".lock") ∈ w.locks) :
    process_target exec target status_dir locks_dir versions resume safe w
      = (.error (.rpErr (lockConflictError (locks_dir ++ "/" ++ tid ++ ".lock"))), w) := by
  simp only [process_target, hid, acquire_lock]
  rw [if_pos hlock]

/-- Witness for C5 at a concrete locked target. -/
theorem process_target_lock_conflict_witness :
    process_target execZero [("BSSID", .vstr "aa:bb"), ("SSID", .vstr "net"),
        ("canal", .vstr "6"), ("timestamp-window", .vstr "w")] ".status" "locks" [] true false
      { locks := ["locks/" ++ sha1hex "aa:bb|net|6|w" ++ ".lock"] }
      = (.error (.rpErr (lockConflictError ("locks" ++ "/" ++ sha1hex "aa:bb|net|6|w" ++ ".lock"))),
         { locks := ["locks/" ++ sha1hex "aa:bb|net|6|w" ++ ".lock"] }) :=
  process_target_lock_conflict execZero _ ".status" "locks" [] true false _
    (sha1hex "aa:bb|net|6|w") rfl (List.mem_cons_self _ _)

/-- Claim C7: an unresolved stage marked active, run in safe mode, is
logged as a skipped event with reason safe-mode, recorded in the skipped
list of the status record (persisted to the status file), and spawns no
subprocess. -/
theorem run_stage_safe_mode_skip
    (exec : String → ExecResult) (stage : PyDict) (nameV : Val) (cmd : String)
    (tid path : String) (st : Status) (versions : List (String × String)) (w : World)
    (hname : pyGet? stage "name" = some nameV)
    (hcmd : normalize_cmd stage = .ok cmd)
    (hnc : pyStr nameV ∉ st.completed) (hns : pyStr nameV ∉ st.skipped)
    (hactive : pyTruthy (pyGetD stage "active" (.vbool false)) = true) :
    ∃ st2 w',
      run_stage exec stage tid path st versions true w = (.ok st2, w') ∧
      w'.log = w.log ++ [.stageEv ⟨isoNowStamp w.clock, pyStr nameV, tid, cmd, versions,
        "skipped", none, none, none, some true, some "safe-mode"⟩] ∧
      st2.skipped = st.skipped ++ [pyStr nameV] ∧
      fsGet w'.fs path = some (.statusRec st2) ∧
      w'.spawned = w.spawned := by
  have hdone : ¬ (pyStr nameV ∈ st.completed ∨ pyStr nameV ∈ st.skipped) := by
    rintro (h | h)
    exacts [hnc h, hns h]
  simp only [run_stage, hname, hcmd]
  rw [if_neg hdone, if_pos ⟨trivial, hactive⟩]
  refine ⟨_, _, rfl, ?_, ?_, ?_, ?_⟩
  · rw [update_status_log]
    simp [log_stage_event, tick]
  · exact update_status_skipped_fields _ _ _ _ _ hns
  · exact update_status_fs _ _ _ _ _ _
  · rw [update_status_spawned]
    simp [log_stage_event, tick]

/-- Witness for C7 at a concrete active stage under safe mode. -/
theorem run_stage_safe_mode_skip_witness :
    ∃ st2 w',
      run_stage execZero [("name", .vstr "s1"), ("cmd", .vstr "c1"), ("active", .vbool true)]
        "tid" "p.json" {} [] true {} = (.ok st2, w') ∧
      w'.log = ({} : World).log ++ [.stageEv ⟨isoNowStamp ({} : World).clock,
        pyStr (.vstr "s1"), "tid", "c1", [], "skipped", none, none, none, some true,
        some "safe-mode"⟩] ∧
      st2.skipped = ({} : Status).skipped ++ [pyStr (.vstr "s1")] ∧
      fsGet w'.fs "p.json" = some (.statusRec st2) ∧
      w'.spawned = ({} : World).spawned :=
  run_stage_safe_mode_skip execZero _ (.vstr "s1") "c1" "tid" "p.json" {} [] {}
    rfl rfl (by decide) (by decide) (by decide)

/-- Claim C8 counterexample: an existing status file whose open or text
decode raises (FileContent.undecodable) makes read_status propagate the
exception rather than return the empty default record, refuting that
read_status never raises for unreadable files. -/
theorem read_status_raises_on_undecodable :
    read_status [("s.json", FileContent.undecodable)] "s.json" = .error .osError ∧
    read_status [("s.json", FileContent.undecodable)] "s.json" ≠ .ok ({} : Status) := by
  refine ⟨rfl, ?_⟩
  intro h
  rw [show read_status [("s.json", FileContent.undecodable)] "s.json"
      = .error .osError from rfl] at h
  exact Except.noConfusion h

/-- Claim C8 amended: read_status returns the empty default record when no
status file exists or when an existing file's text fails JSON parsing
(json.JSONDecodeError is the only caught exception); for any file state
other than an unreadable/undecodable existing file it returns normally. -/
theorem read_status_defaults_amended (fs : Fs) (p : String)
    (h : fsGet fs p ≠ some FileContent.undecodable) :
    (∃ st, read_status fs p = .ok st) ∧
    (fsGet fs p = none ∨ fsGet fs p = some FileContent.notJson →
      read_status fs p = .ok ({} : Status)) := by
  rcases hg : fsGet fs p with _ | c
  · exact ⟨⟨{}, by simp [read_status, hg]⟩, fun _ => by simp [read_status, hg]⟩
  · cases c with
    | statusRec st =>
      refine ⟨⟨st, by simp [read_status, hg]⟩, ?_⟩
      rintro (h1 | h1) <;> simp at h1
    | notJson => exact ⟨⟨{}, by simp [read_status, hg]⟩, fun _ => by simp [read_status, hg]⟩
    | undecodable => exact absurd hg h

/-- Witness for the amended C8: a corrupt (non-JSON) file reads as the
empty default record. -/
theorem read_status_defaults_amended_witness :
    (∃ st, read_status [("a.json", FileContent.notJson)] "a.json" = .ok st) ∧
    (fsGet [("a.json", FileContent.notJson)] "a.json" = none ∨
        fsGet [("a.json", FileContent.notJson)] "a.json" = some FileContent.notJson →
      read_status [("a.json", FileContent.notJson)] "a.json" = .ok ({} : Status)) :=
  read_status_defaults_amended _ _ (by decide)

/-- Claim C9: write_status writes the whole record to the temporary file
first and renames last; executing any strict prefix of its file-system
steps (a crash before the rename) leaves the committed status file's
content, and what read_status returns from it, unchanged. -/
theorem write_status_crash_safe (fs : Fs) (p : String) (st : Status) (k : Nat)
    (hk : k < (write_status_ops p st).length) :
    fsGet (((write_status_ops p st).take k).foldl applyFsOp fs) p = fsGet fs p ∧
    read_status (((write_status_ops p st).take k).foldl applyFsOp fs) p = read_status fs p := by
  have hk2 : k < 2 := hk
  have hget : fsGet (((write_status_ops p st).take k).foldl applyFsOp fs) p = fsGet fs p := by
    interval_cases k
    · rfl
    · show fsGet (applyFsOp fs (.write (statusTmpPath p) (.statusRec st))) p = fsGet fs p
      exact fsGet_fsSet_ne fs (statusTmpPath p) _ p (ne_statusTmpPath p)
  refine ⟨hget, ?_⟩
  unfold read_status
  rw [hget]

/-- Witness for C9: crashing after the temporary-file write leaves the
previously committed record in place. -/
theorem write_status_crash_safe_witness :
    fsGet (((write_status_ops "t.json" { completed := ["x"] }).take 1).foldl applyFsOp
        [("t.json", .statusRec {})]) "t.json" = fsGet [("t.json", .statusRec {})] "t.json" ∧
    read_status (((write_status_ops "t.json" { completed := ["x"] }).take 1).foldl applyFsOp
        [("t.json", .statusRec {})]) "t.json" = read_status [("t.json", .statusRec {})] "t.json" :=
  write_status_crash_safe _ _ _ 1 (by decide)

/-- Claim C10: tokenize_yaml strips comments with no quote awareness: on
any line everything from the first '#' onward is dropped, even inside a
quoted scalar, so the line cmd: "echo #1" tokenizes to the truncated
cmd: "echo whose value parses to the raw scalar "echo, not the intended
echo #1. -/
theorem tokenize_comment_not_quote_aware (p s : String) (hp : '#' ∉ p.data)
    (hnp : '\n' ∉ p.data) (hns : '\n' ∉ s.data) :
    tokenize_line (p ++ "#" ++ s) = tokenize_line p ∧
    tokenize_yaml (p ++ "#" ++ s) = tokenize_yaml p ∧
    tokenize_yaml "cmd: \"echo #1\"" = [(0, "cmd: \"echo")] ∧
    parse_scalar "\"echo" = .ok (.vstr "\"echo") ∧
    ("\"echo" : String) ≠ "echo #1" :=
  ⟨tokenize_line_comment_append p s hp, tokenize_yaml_comment_append p s hp hnp hns,
    by decide, rfl, by decide⟩

/-- Witness for C10 at the concrete line cmd: "echo #1". -/
theorem tokenize_comment_not_quote_aware_witness :
    tokenize_line ("cmd: \"echo " ++ "#" ++ "1\"") = tokenize_line "cmd: \"echo " ∧
    tokenize_yaml ("cmd: \"echo " ++ "#" ++ "1\"") = tokenize_yaml "cmd: \"echo " ∧
    tokenize_yaml "cmd: \"echo #1\"" = [(0, "cmd: \"echo")] ∧
    parse_scalar "\"echo" = .ok (.vstr "\"echo") ∧
    ("\"echo" : String) ≠ "echo #1" :=
  tokenize_comment_not_quote_aware "cmd: \"echo " "1\"" (by decide) (by decide) (by decide)

/-- Claim C4: on a non-zero exit code run_stage appends the start event and
an error event carrying the captured stdout, stderr and return code, writes
a status record whose state is error with an error entry for the stage, and
raises a StageExecutionError; the stage loop then stops at that stage for
any remaining stages, so the target is never finalized to completed. -/
theorem run_stage_error_failfast
    (exec : String → ExecResult) (stage : PyDict) (nameV : Val) (cmd : String)
    (tid path : String) (st : Status) (versions : List (String × String))
    (safe : Bool) (w : World)
    (hname : pyGet? stage "name" = some nameV)
    (hcmd : normalize_cmd stage = .ok cmd)
    (hnc : pyStr nameV ∉ st.completed) (hns : pyStr nameV ∉ st.skipped)
    (hsafe : ¬ (safe = true ∧ pyTruthy (pyGetD stage "active" (.vbool false)) = true))
    (hfail : (exec cmd).returncode ≠ 0) :
    ∃ w' st2,
      run_stage exec stage tid path st versions safe w
        = (.error (.rpErr (stage_failed_error (pyStr nameV) (exec cmd).returncode)), w') ∧
      (stage_failed_error (pyStr nameV) (exec cmd).returncode).isStageExecution = true ∧
      w'.log = w.log ++ [.stageEv ⟨isoNowStamp w.clock, pyStr nameV, tid, cmd, versions,
          "start", none, none, none, none, none⟩,
        .stageEv ⟨isoNowStamp (w.clock + 1), pyStr nameV, tid, cmd, versions,
          "error", some (exec cmd).returncode, some (exec cmd).stdout,
          some (exec cmd).stderr, none, none⟩] ∧
      fsGet w'.fs path = some (.statusRec st2) ∧
      st2.state = some "error" ∧
      alistGet? st2.errors (pyStr nameV) ≠ none ∧
      ∀ rest, run_stages_loop exec (stage :: rest) tid path versions safe st w
        = (.error (.rpErr (stage_failed_error (pyStr nameV) (exec cmd).returncode)), w') := by
  have hdone : ¬ (pyStr nameV ∈ st.completed ∨ pyStr nameV ∈ st.skipped) := by
    rintro (h | h)
    exacts [hnc h, hns h]
  have key : ∃ w' st2,
      run_stage exec stage tid path st versions safe w
        = (.error (.rpErr (stage_failed_error (pyStr nameV) (exec cmd).returncode)), w') ∧
      w'.log = w.log ++ [.stageEv ⟨isoNowStamp w.clock, pyStr nameV, tid, cmd, versions,
          "start", none, none, none, none, none⟩,
        .stageEv ⟨isoNowStamp (w.clock + 1), pyStr nameV, tid, cmd, versions,
          "error", some (exec cmd).returncode, some (exec cmd).stdout,
          some (exec cmd).stderr, none, none⟩] ∧
      fsGet w'.fs path = some (.statusRec st2) ∧
      st2.state = some "error" ∧
      alistGet? st2.errors (pyStr nameV) ≠ none := by
    simp only [run_stage, hname, hcmd]
    rw [if_neg hdone, if_neg hsafe, if_pos hfail]
    exact ⟨_, _, rfl, by rw [update_status_log]; simp [log_stage_event, tick],
      update_status_fs _ _ _ _ _ _, (update_status_error_fields _ _ _ _ _).1,
      (update_status_error_fields _ _ _ _ _).2⟩
  obtain ⟨w', st2, hrs, hlog, hfs, hstate, herr⟩ := key
  refine ⟨w', st2, hrs, rfl, hlog, hfs, hstate, herr, ?_⟩
  intro rest
  simp only [run_stages_loop, hrs]

/-- Witness for C4 at a concrete failing command (exit code 2). -/
theorem run_stage_error_failfast_witness :
    ∃ w' st2,
      run_stage execFail [("name", .vstr "s1"), ("cmd", .vstr "c1")] "tid" "p.json" {} [] false {}
        = (.error (.rpErr (stage_failed_error (pyStr (.vstr "s1")) (execFail "c1").returncode)), w') ∧
      (stage_failed_error (pyStr (.vstr "s1")) (execFail "c1").returncode).isStageExecution = true ∧
      w'.log = ({} : World).log ++ [.stageEv ⟨isoNowStamp ({} : World).clock, pyStr (.vstr "s1"),
          "tid", "c1", [], "start", none, none, none, none, none⟩,
        .stageEv ⟨isoNowStamp (({} : World).clock + 1), pyStr (.vstr "s1"), "tid", "c1", [],
          "error", some (execFail "c1").returncode, some (execFail "c1").stdout,
          some (execFail "c1").stderr, none, none⟩] ∧
      fsGet w'.fs "p.json" = some (.statusRec st2) ∧
      st2.state = some "error" ∧
      alistGet? st2.errors (pyStr (.vstr "s1")) ≠ none ∧
      ∀ rest, run_stages_loop execFail ([("name", .vstr "s1"), ("cmd", .vstr "c1")] :: rest)
          "tid" "p.json" [] false {} {}
        = (.error (.rpErr (stage_failed_error (pyStr (.vstr "s1")) (execFail "c1").returncode)), w') :=
  run_stage_error_failfast execFail _ (.vstr "s1") "c1" "tid" "p.json" {} [] false {}
    rfl rfl (by decide) (by decide) (by simp) (by decide)

/-- Claim C3: every status update made while a target is processed keeps
the record invariant: a stage name sits in at most one of the completed and
skipped lists, and a stage that completes or is skipped has its error entry
removed.  Stated as preservation of statusOK by run_stage for the returned
record and for whatever record the status file then holds, and by
finalize_status for the file. -/
theorem run_stage_preserves_status_invariant
    (exec : String → ExecResult) (stage : PyDict) (tid path : String)
    (versions : List (String × String)) (safe : Bool) (w : World) (st : Status)
    (hok : statusOK st) (hfile : fileOK w.fs path) :
    (∀ st2, (run_stage exec stage tid path st versions safe w).1 = .ok st2 → statusOK st2) ∧
    fileOK (run_stage exec stage tid path st versions safe w).2.fs path ∧
    fileOK (finalize_status w path st).fs path := by
  have hfin : fileOK (finalize_status w path st).fs path := by
    unfold finalize_status
    split_ifs with hst
    · intro st' hget
      simp only [tick] at hget
      rw [fsGet_write_status_self] at hget
      cases hget
      exact hok
    · exact hfile
  have main : (∀ st2, (run_stage exec stage tid path st versions safe w).1 = .ok st2 →
      statusOK st2) ∧ fileOK (run_stage exec stage tid path st versions safe w).2.fs path := by
    rcases hn : pyGet? stage "name" with _ | nameV
    · refine ⟨?_, ?_⟩
      · intro st2 h
        simp only [run_stage, hn] at h
        cases h
      · simp only [run_stage, hn]
        exact hfile
    · rcases hc : normalize_cmd stage with e | cmd
      · refine ⟨?_, ?_⟩
        · intro st2 h
          simp only [run_stage, hn, hc] at h
          cases h
        · simp only [run_stage, hn, hc]
          exact hfile
      · by_cases hd : pyStr nameV ∈ st.completed ∨ pyStr nameV ∈ st.skipped
        · refine ⟨?_, ?_⟩
          · intro st2 h
            simp only [run_stage, hn, hc, if_pos hd] at h
            cases h
            exact hok
          · simp only [run_stage, hn, hc, if_pos hd]
            exact hfile
        · push_neg at hd
          have hd' : ¬ (pyStr nameV ∈ st.completed ∨ pyStr nameV ∈ st.skipped) := by
            rintro (h | h)
            exacts [hd.1 h, hd.2 h]
          by_cases hsafe : safe = true ∧ pyTruthy (pyGetD stage "active" (.vbool false)) = true
          · refine ⟨?_, ?_⟩
            · intro st2 h
              simp only [run_stage, hn, hc, if_neg hd', if_pos hsafe] at h
              cases h
              exact statusOK_update_status _ _ _ _ _ _ hok hd.1 hd.2
            · simp only [run_stage, hn, hc, if_neg hd', if_pos hsafe]
              intro st' hget
              rw [update_status_fs] at hget
              cases hget
              exact statusOK_update_status _ _ _ _ _ _ hok hd.1 hd.2
          · by_cases hr : (exec cmd).returncode ≠ 0
            · refine ⟨?_, ?_⟩
              · intro st2 h
                simp only [run_stage, hn, hc, if_neg hd', if_neg hsafe, if_pos hr] at h
                cases h
              · simp only [run_stage, hn, hc, if_neg hd', if_neg hsafe, if_pos hr]
                intro st' hget
                rw [update_status_fs] at hget
                cases hget
                exact statusOK_update_status _ _ _ _ _ _ hok hd.1 hd.2
            · refine ⟨?_, ?_⟩
              · intro st2 h
                simp only [run_stage, hn, hc, if_neg hd', if_neg hsafe, if_neg hr] at h
                cases h
                exact statusOK_update_status _ _ _ _ _ _ hok hd.1 hd.2
              · simp only [run_stage, hn, hc, if_neg hd', if_neg hsafe, if_neg hr]
                intro st' hget
                rw [update_status_fs] at hget
                cases hget
                exact statusOK_update_status _ _ _ _ _ _ hok hd.1 hd.2
  exact ⟨main.1, main.2, hfin⟩

/-- Witness for C3 starting from the empty record and empty world. -/
theorem run_stage_preserves_status_invariant_witness :
    (∀ st2, (run_stage execZero [("name", .vstr "s1"), ("cmd", .vstr "c1")] "tid" "p.json"
        {} [] false {}).1 = .ok st2 → statusOK st2) ∧
    fileOK (run_stage execZero [("name", .vstr "s1"), ("cmd", .vstr "c1")] "tid" "p.json"
        {} [] false {}).2.fs "p.json" ∧
    fileOK (finalize_status {} "p.json" {}).fs "p.json" :=
  run_stage_preserves_status_invariant execZero _ "tid" "p.json" [] false {} {}
    ⟨fun s h => by simp at h, fun s h => by rcases h with h | h <;> simp at h⟩
    (fun st h => by simp [fsGet, alistGet?] at h)

/-- Claim C6: errors while processing one target are caught at the
per-target boundary (the loop decomposes target by target, appending a
logged error payload and continuing with the remaining targets, so the
outcome list always has one entry per target), and the exit status of run
is 0 when no target produced an error and otherwise the maximum of the
collected error codes. -/
theorem run_exit_status_aggregates
    (exec : String → ExecResult) (sd ld : String) (versions : List (String × String))
    (resume safe : Bool) (targets : List Val) (w : World) :
    (run_targets_loop exec sd ld versions resume safe targets w).1.length = targets.length ∧
    (run_targets exec sd ld versions resume safe targets w).2
      = (run_targets_loop exec sd ld versions resume safe targets w).2 ∧
    ((run_targets_loop exec sd ld versions resume safe targets w).1.filterMap id = [] →
      (run_targets exec sd ld versions resume safe targets w).1 = 0) ∧
    (∀ errs, (run_targets_loop exec sd ld versions resume safe targets w).1.filterMap id = errs →
      errs ≠ [] →
      (∀ e ∈ errs, e.code ≤ (run_targets exec sd ld versions resume safe targets w).1) ∧
      ∃ e ∈ errs, e.code = (run_targets exec sd ld versions resume safe targets w).1) ∧
    (∀ t w0 e w1, process_one_target exec sd ld versions resume safe t w0 = (some e, w1) →
      w1.log.getLast? = some (.runError (isoNowStamp (w1.clock - 1)) e.message) ∧
      ∀ rest, run_targets_loop exec sd ld versions resume safe (t :: rest) w0
        = ((some e) :: (run_targets_loop exec sd ld versions resume safe rest w1).1,
           (run_targets_loop exec sd ld versions resume safe rest w1).2)) := by
  refine ⟨run_targets_loop_length _ _ _ _ _ _ _ _, rfl, ?_, ?_, ?_⟩
  · intro h
    show exit_code ((run_targets_loop exec sd ld versions resume safe targets w).1.filterMap id) = 0
    rw [h]
    rfl
  · intro errs herrs hne
    have hshow : (run_targets exec sd ld versions resume safe targets w).1 = exit_code errs := by
      show exit_code ((run_targets_loop exec sd ld versions resume safe targets w).1.filterMap id)
        = exit_code errs
      rw [herrs]
    rw [hshow]
    cases errs with
    | nil => exact absurd rfl hne
    | cons e0 rest =>
      simp only [exit_code]
      constructor
      · intro e he
        rcases List.mem_cons.mp he with rfl | hm
        · exact le_foldl_max _ _
        · exact foldl_max_le _ _ _ (List.mem_map_of_mem (fun x => x.code) hm)
      · rcases foldl_max_mem (rest.map (fun x => x.code)) e0.code with hh | hh
        · exact ⟨e0, List.mem_cons_self _ _, hh.symm⟩
        · obtain ⟨x, hxm, hxc⟩ := List.mem_map.mp hh
          exact ⟨x, List.mem_cons_of_mem _ hxm, hxc⟩
  · intro t w0 e w1 hpe
    have hpe0 := hpe
    rcases hraw : process_one_target_raw exec sd ld versions resume safe t w0 with ⟨res, w'⟩
    unfold process_one_target at hpe
    rw [hraw] at hpe
    cases res with
    | ok u => simp at hpe
    | error ek =>
      simp only [] at hpe
      injection hpe with h1 h2
      injection h1 with h1'
      constructor
      · rw [← h2]
        simp [tick, List.getLast?_concat, ← h1']
      · intro rest
        simp only [run_targets_loop, hpe0]

/-- Witness for C6: a plan with two invalid (non-mapping) targets still
visits both and exits with the maximal collected code 1. -/
theorem run_exit_status_aggregates_witness :
    (run_targets_loop execZero "st" "lk" [] false false [Val.vnone, Val.vstr "x"] {}).1.length
      = ([Val.vnone, Val.vstr "x"] : List Val).length ∧
    (run_targets execZero "st" "lk" [] false false [Val.vnone, Val.vstr "x"] {}).1 = 1 := by
  have h := run_exit_status_aggregates execZero "st" "lk" [] false false
    [Val.vnone, Val.vstr "x"] {}
  refine ⟨h.1, ?_⟩
  have herrs : (run_targets_loop execZero "st" "lk" [] false false
        [Val.vnone, Val.vstr "x"] {}).1.filterMap id
      = [{ message := "Each target must be a mapping" },
         { message := "Each target must be a mapping" }] := rfl
  obtain ⟨hle, e, hmem, hcode⟩ := h.2.2.2.1 _ herrs (by simp)
  rw [← hcode]
  rcases List.mem_cons.mp hmem with rfl | hm
  · rfl
  · rcases List.mem_cons.mp hm with rfl | hm2
    · rfl
    · simp at hm2
